import Mathlib

/-!
# Verification of the transform-baking core (`task/apply_transforms/shapes.rs`)

A shallow embedding of the svgcleaner transform-baking pass and proofs of the
spec's claims about it.  Numbers are modelled as `ℚ`.  The document is a rose
tree of elements; attribute sets are finite maps from attribute ids to typed
attribute values.  The affine-transform type and the stroke-width helper are
consumed by the source as an external library, so they are modelled from the
spec (marked `Modelled from the spec:` below); everything else is translated
directly from the source file.
-/

/-- Length units.  Modelled from the spec: a numeric length carries a unit
that is either none, a physical unit, or a percentage; the source only ever
tests `unit == Unit::None`. -/
inductive LUnit where
  | none
  | physical
  | percent
deriving DecidableEq

/-- A numeric length: value plus unit (svgdom `Length`). -/
structure Length where
  num : ℚ
  unit : LUnit
deriving DecidableEq

/-- `Length::zero()`. -/
def Length.zero : Length := ⟨0, LUnit.none⟩

/-- Modelled from the spec: the affine transform is a 2×3 matrix
`[a c e; b d f]` representing translate/scale/rotate/skew (svgdom
`Transform`, consumed as a trusted library). -/
structure Transform where
  a : ℚ
  b : ℚ
  c : ℚ
  d : ℚ
  e : ℚ
  f : ℚ
deriving DecidableEq

/-- Modelled from the spec: point application — mapping an (x,y) pair through
the matrix. -/
def Transform.apply (t : Transform) (x y : ℚ) : ℚ × ℚ :=
  (t.a * x + t.c * y + t.e, t.b * x + t.d * y + t.f)

/-- Modelled from the spec: composition — `t1.append t2` combines the two
transforms into one equivalent to applying `t2` first and then `t1`
(matrix product `t1 · t2`). -/
def Transform.append (t1 t2 : Transform) : Transform :=
  ⟨t1.a * t2.a + t1.c * t2.b,
   t1.b * t2.a + t1.d * t2.b,
   t1.a * t2.c + t1.c * t2.d,
   t1.b * t2.c + t1.d * t2.d,
   t1.a * t2.e + t1.c * t2.f + t1.e,
   t1.b * t2.e + t1.d * t2.f + t1.f⟩

/-- Exact rational square root; on a perfect square of a rational it returns
the true square root (the only case the decomposed queries below are ever
relied upon: a skew-free proportionally-scaled matrix has a perfect-square
squared scale factor). -/
def ratSqrt (q : ℚ) : ℚ :=
  (Nat.sqrt q.num.toNat : ℚ) / (Nat.sqrt q.den : ℚ)

/-- Modelled from the spec: decomposed query `get-scale-factors`.  The
horizontal scale factor is the length of the image of the unit x-vector,
`sqrt (a² + b²)`, and symmetrically for y. -/
def Transform.get_scale (t : Transform) : ℚ × ℚ :=
  (ratSqrt (t.a ^ 2 + t.b ^ 2), ratSqrt (t.c ^ 2 + t.d ^ 2))

/-- Modelled from the spec: decomposed query `has-scale` — some axis is
scaled by a factor other than 1, i.e. a squared scale factor differs
from 1. -/
def Transform.has_scale (t : Transform) : Bool :=
  decide (t.a ^ 2 + t.b ^ 2 ≠ 1 ∨ t.c ^ 2 + t.d ^ 2 ≠ 1)

/-- Modelled from the spec: decomposed query `has-proportional-scale`
(`sx = sy`, stated on the squared factors to stay in `ℚ`). -/
def Transform.has_proportional_scale (t : Transform) : Bool :=
  decide (t.a ^ 2 + t.b ^ 2 = t.c ^ 2 + t.d ^ 2)

/-- Modelled from the spec: decomposed query `has-skew` — the images of the
two axes are not perpendicular. -/
def Transform.has_skew (t : Transform) : Bool :=
  decide (t.a * t.c + t.b * t.d ≠ 0)

/-- Attribute identifiers used by the core (`task::short::AId`). -/
inductive AId where
  | transform
  | x | y | width | height | rx | ry
  | cx | cy | r
  | x1 | y1 | x2 | y2
  | fill | stroke
  | filterAttr
  | maskAttr
  | clipPath
  | strokeWidth
deriving DecidableEq

/-- Attribute values (svgdom `AttributeValue`): the closed variant type of
the spec — numeric length, affine transform, functional reference, plain
color, or an unsupported/untyped payload. -/
inductive AttrValue where
  | length (l : Length)
  | transform (t : Transform)
  | funcLink (id : String)
  | color (s : String)
  | unsupported (s : String)
deriving DecidableEq

/-- An attribute set: a mapping from attribute identifier to attribute
value, keys unique, no implied order. -/
def Attrs : Type := AId → Option AttrValue

/-- `attrs.get_value(aid)`. -/
def Attrs.get (attrs : Attrs) (aid : AId) : Option AttrValue := attrs aid

/-- `attrs.insert`/`set_attribute`: overwrite the binding of one key. -/
def Attrs.insert (attrs : Attrs) (aid : AId) (v : AttrValue) : Attrs :=
  fun i => if i = aid then some v else attrs i

/-- `attrs.remove(aid)`. -/
def Attrs.remove (attrs : Attrs) (aid : AId) : Attrs :=
  fun i => if i = aid then none else attrs i

/-- `attrs.contains(aid)` / `node.has_attribute(aid)`. -/
def Attrs.contains (attrs : Attrs) (aid : AId) : Bool := (attrs aid).isSome

/-- Element kinds relevant to the core (`task::short::EId`); every other tag
is collapsed into `other`. -/
inductive EId where
  | g | rect | circle | ellipse | line | other
deriving DecidableEq

/-- A document element: tag, attribute set, and child elements, in document
order. -/
inductive Node where
  | mk (tag : EId) (attrs : Attrs) (children : List Node)

def Node.tag : Node → EId
  | .mk t _ _ => t

def Node.attrs : Node → Attrs
  | .mk _ a _ => a

def Node.children : Node → List Node
  | .mk _ _ cs => cs

/-- Replace an element's attribute set, keeping tag and children. -/
def Node.withAttrs : Node → Attrs → Node
  | .mk t _ cs, a => .mk t a cs

/-- `get_ts`, on an attribute set: `attribute_value(Transform).unwrap()
.as_transform().unwrap()`.  `none` models the panic of either unwrap
(attribute absent, or present with a non-transform value). -/
def getTsA (attrs : Attrs) : Option Transform :=
  match attrs.get AId.transform with
  | some (.transform t) => some t
  | _ => none

/-- `get_ts(node)` from the source. -/
def get_ts (n : Node) : Option Transform := getTsA n.attrs

/-- `is_valid_transform`, on an attribute set.  A node without a transform is
trivially valid; otherwise reject non-proportional scale and skew.  When the
transform attribute holds a non-transform value the source panics inside
`get_ts` (see `is_valid_transformP`); the total model returns `false` there,
a branch no theorem below depends on. -/
def is_valid_transformA (attrs : Attrs) : Bool :=
  if (attrs.get AId.transform).isSome = false then true
  else
    match getTsA attrs with
    | some ts => !(ts.has_scale && !ts.has_proportional_scale) && !ts.has_skew
    | none => false

/-- `is_valid_transform(node)` from the source. -/
def is_valid_transform (n : Node) : Bool := is_valid_transformA n.attrs

/-- `is_valid_transform` with the panic made observable: `none` is the
unwrap panic inside `get_ts` when the transform attribute is present but its
value is not a typed affine transform. -/
def is_valid_transformP (n : Node) : Option Bool :=
  if (n.attrs.get AId.transform).isSome = false then some true
  else
    match getTsA n.attrs with
    | some ts => some (!(ts.has_scale && !ts.has_proportional_scale) && !ts.has_skew)
    | none => none

/-- Is this optional value a functional reference? -/
def isFuncLink : Option AttrValue → Bool
  | some (.funcLink _) => true
  | _ => false

/-- `is_valid_attrs`, on an attribute set: no `fill`/`stroke`/`filter`
functional reference, no `mask` or `clip-path`. -/
def is_valid_attrsA (attrs : Attrs) : Bool :=
  !isFuncLink (attrs.get AId.fill) &&
  !isFuncLink (attrs.get AId.stroke) &&
  !isFuncLink (attrs.get AId.filterAttr) &&
  !attrs.contains AId.maskAttr &&
  !attrs.contains AId.clipPath

/-- `is_valid_attrs(node)` from the source. -/
def is_valid_attrs (n : Node) : Bool := is_valid_attrsA n.attrs

/-- The inner `is_valid_coord`: a coordinate attribute is acceptable when it
is absent, not a length, or a unitless length. -/
def is_valid_coord (attrs : Attrs) (aid : AId) : Bool :=
  match attrs.get aid with
  | some (.length v) => decide (v.unit = LUnit.none)
  | _ => true

/-- `_is_valid_coords`: every listed attribute passes `is_valid_coord`. -/
def is_valid_coords_list (attrs : Attrs) (aids : List AId) : Bool :=
  aids.all (is_valid_coord attrs)

/-- `is_valid_coords`: dispatch on the element kind; only the position
attributes of each shape are checked, and non-shape kinds are rejected. -/
def is_valid_coords (n : Node) : Bool :=
  match n.tag with
  | .rect => is_valid_coords_list n.attrs [AId.x, AId.y]
  | .circle => is_valid_coords_list n.attrs [AId.cx, AId.cy]
  | .ellipse => is_valid_coords_list n.attrs [AId.cx, AId.cy]
  | .line => is_valid_coords_list n.attrs [AId.x1, AId.y1, AId.x2, AId.y2]
  | _ => false

/-- The `get_value!(attrs, Length, aid, default)` macro: the length bound to
`aid`, or the default when absent or not a length. -/
def get_length (attrs : Attrs) (aid : AId) (dflt : Length) : Length :=
  match attrs.get aid with
  | some (.length v) => v
  | _ => dflt

/-- `scale_pos_coord`: read the two position attributes (defaulting to
zero), map the pair through the full transform, and write both back as
unitless lengths. -/
def scale_pos_coord (attrs : Attrs) (aid_x aid_y : AId) (ts : Transform) : Attrs :=
  let x := get_length attrs aid_x Length.zero
  let y := get_length attrs aid_y Length.zero
  let p := ts.apply x.num y.num
  (attrs.insert aid_x (.length ⟨p.1, LUnit.none⟩)).insert aid_y (.length ⟨p.2, LUnit.none⟩)

/-- `scale_coord`: multiply the numeric part of a present length attribute
by the scale factor, preserving its unit; absent or non-length attributes
are left alone. -/
def scale_coord (attrs : Attrs) (aid : AId) (scale_factor : ℚ) : Attrs :=
  match attrs.get aid with
  | some (.length len) => attrs.insert aid (.length ⟨len.num * scale_factor, len.unit⟩)
  | _ => attrs

/-- Modelled from the spec: `task::utils::recalc_stroke_width` — multiply
the current (or, if absent, the nearest inherited) stroke-width value by the
uniform scale factor and write it back as the element's own stroke-width.
`inherited` is the nearest ancestor stroke-width (1, the SVG default, when
no ancestor sets one). -/
def recalc_stroke_width (inherited : ℚ) (attrs : Attrs) (sx : ℚ) : Attrs :=
  let w := match attrs.get AId.strokeWidth with
    | some (.length l) => l.num
    | _ => inherited
  attrs.insert AId.strokeWidth (.length ⟨w * sx, LUnit.none⟩)

/-- The shape-specific rewrite for `<rect>` (the closure of `process_rect`):
map (x,y) through the transform; if it has a scale part, scale
width/height/rx/ry by the uniform factor. -/
def rect_func (attrs : Attrs) (ts : Transform) : Attrs :=
  let a1 := scale_pos_coord attrs AId.x AId.y ts
  if ts.has_scale then
    scale_coord (scale_coord (scale_coord (scale_coord a1
      AId.width ts.get_scale.1) AId.height ts.get_scale.1)
      AId.rx ts.get_scale.1) AId.ry ts.get_scale.1
  else a1

/-- The shape-specific rewrite for `<circle>`. -/
def circle_func (attrs : Attrs) (ts : Transform) : Attrs :=
  let a1 := scale_pos_coord attrs AId.cx AId.cy ts
  if ts.has_scale then scale_coord a1 AId.r ts.get_scale.1 else a1

/-- The shape-specific rewrite for `<ellipse>`. -/
def ellipse_func (attrs : Attrs) (ts : Transform) : Attrs :=
  let a1 := scale_pos_coord attrs AId.cx AId.cy ts
  if ts.has_scale then
    scale_coord (scale_coord a1 AId.rx ts.get_scale.1) AId.ry ts.get_scale.1
  else a1

/-- The shape-specific rewrite for `<line>`: both endpoints mapped, no size
attributes. -/
def line_func (attrs : Attrs) (ts : Transform) : Attrs :=
  scale_pos_coord (scale_pos_coord attrs AId.x1 AId.y1 ts) AId.x2 AId.y2 ts

/-- The conjunction of the three validity predicates guarding `process`
(the early-return chain at the top of the source's `process`). -/
def bakeGate (n : Node) : Bool :=
  is_valid_transform n && is_valid_attrs n && is_valid_coords n

/-- `process(node, func)`: gate on the three validity predicates, run the
shape rewrite, delete the transform, and recompute stroke width when the
transform has a scale part.  The `none` branch of `getTsA` is where the
source's `get_ts` would panic; it is unreachable from the pass (which only
calls `process` on nodes carrying a transform, for which a passing
`is_valid_transform` guarantees a typed value). -/
def process (inherited : ℚ) (func : Attrs → Transform → Attrs) (n : Node) : Node :=
  if bakeGate n then
    match getTsA n.attrs with
    | some ts =>
      let a1 := (func n.attrs ts).remove AId.transform
      let a2 := if ts.has_scale then recalc_stroke_width inherited a1 ts.get_scale.1 else a1
      n.withAttrs a2
    | none => n
  else n

/-- `process_rect`. -/
def process_rect (inherited : ℚ) (n : Node) : Node := process inherited rect_func n

/-- `process_circle`. -/
def process_circle (inherited : ℚ) (n : Node) : Node := process inherited circle_func n

/-- `process_ellipse`. -/
def process_ellipse (inherited : ℚ) (n : Node) : Node := process inherited ellipse_func n

/-- `process_line`. -/
def process_line (inherited : ℚ) (n : Node) : Node := process inherited line_func n

/-- Does the tag name one of the four bakeable shapes? -/
def shapeTag : EId → Bool
  | .rect | .circle | .ellipse | .line => true
  | _ => false

/-- The per-child eligibility check of the group pass: the child must be one
of the four shapes and pass all three validity predicates. -/
def child_ok (n : Node) : Bool :=
  shapeTag n.tag && bakeGate n

/-- The whole gate of the group-hoisting loop body: the node is a `<g>`
carrying a transform, passes transform and attribute validity itself, and
every child passes `child_ok`. -/
def groupEligible (t : EId) (attrs : Attrs) (cs : List Node) : Bool :=
  decide (t = EId.g) && attrs.contains AId.transform &&
  is_valid_transformA attrs && is_valid_attrsA attrs &&
  cs.all child_ok

/-- The mutation hoisting applies to one child's attribute set: compose the
group transform with the child's own (group's applied last), or give the
child the group transform directly.  The untyped-value fallthrough is the
`get_ts` panic again, unreachable under `child_ok`. -/
def hoistAttrs (ts : Transform) (attrs : Attrs) : Attrs :=
  if attrs.contains AId.transform then
    match attrs.get AId.transform with
    | some (.transform ts2) => attrs.insert AId.transform (.transform (ts.append ts2))
    | _ => attrs
  else attrs.insert AId.transform (.transform ts)

/-- One iteration of the group-hoisting loop (source lines 38–73): if the
group is eligible, push its transform onto every child and delete it from
the group; otherwise leave everything exactly as found. -/
def hoistGroup (n : Node) : Node :=
  if groupEligible n.tag n.attrs n.children then
    match getTsA n.attrs with
    | some ts =>
      Node.mk n.tag (n.attrs.remove AId.transform)
        (n.children.map (fun c => c.withAttrs (hoistAttrs ts c.attrs)))
    | none => n
  else n

/-- The pending parent-to-child attribute update while traversing: `some ts`
on the direct children of a group just hoisted. -/
def applyPending : Option Transform → Attrs → Attrs
  | none, attrs => attrs
  | some ts, attrs => hoistAttrs ts attrs

mutual
/-- The group-hoisting pass in document (pre-)order.  Each node first
receives its pending update (the mutation an eligible parent group just made
to it), then the hoisting step runs on it, then its children are visited. -/
def pass1N : Option Transform → Node → Node
  | o, .mk t a cs =>
    if groupEligible t (applyPending o a) cs then
      match getTsA (applyPending o a) with
      | some ts => .mk t ((applyPending o a).remove AId.transform) (pass1Cs (some ts) cs)
      | none => .mk t (applyPending o a) (pass1Cs none cs)
    else .mk t (applyPending o a) (pass1Cs none cs)

def pass1Cs : Option Transform → List Node → List Node
  | _, [] => []
  | o, c :: cs => pass1N o c :: pass1Cs o cs
end

/-- The stroke-width a node's children inherit: the node's own stroke-width
when set, else what the node itself inherited.  Modelled from the spec
(stroke-width inheritance for the recalculation helper). -/
def inheritedSW (inherited : ℚ) (attrs : Attrs) : ℚ :=
  match attrs.get AId.strokeWidth with
  | some (.length l) => l.num
  | _ => inherited

/-- One iteration of the shape-baking loop (source lines 78–86): nodes
carrying a transform are dispatched on their tag; all other tags are left
alone. -/
def processNode (inherited : ℚ) (n : Node) : Node :=
  if n.attrs.contains AId.transform then
    match n.tag with
    | .rect => process_rect inherited n
    | .circle => process_circle inherited n
    | .ellipse => process_ellipse inherited n
    | .line => process_line inherited n
    | _ => n
  else n

mutual
/-- The shape-baking pass in document (pre-)order, threading the nearest
inherited stroke-width downward (ancestors are processed before their
descendants, so children see the post-bake ancestor attributes). -/
def pass2N : ℚ → Node → Node
  | inherited, .mk t a cs =>
    Node.mk t (processNode inherited (.mk t a cs)).attrs
      (pass2Cs (inheritedSW inherited (processNode inherited (.mk t a cs)).attrs) cs)

def pass2Cs : ℚ → List Node → List Node
  | _, [] => []
  | i, c :: cs => pass2N i c :: pass2Cs i cs
end

/-- `apply_transform_to_shapes`: group hoisting over the whole tree, then
shape baking, starting from the SVG default stroke-width of 1. -/
def apply_transform_to_shapes (doc : Node) : Node :=
  pass2N 1 (pass1N none doc)

/-- Build an attribute set from an association list (first binding wins);
used to state concrete instances. -/
def attrsOf (l : List (AId × AttrValue)) : Attrs :=
  fun a => (l.find? (fun p => decide (p.1 = a))).map (fun p => p.2)

/-! ## Basic lemmas about the data model -/

@[simp] theorem Node.tag_mk (t : EId) (a : Attrs) (cs : List Node) :
    (Node.mk t a cs).tag = t := rfl

@[simp] theorem Node.attrs_mk (t : EId) (a : Attrs) (cs : List Node) :
    (Node.mk t a cs).attrs = a := rfl

@[simp] theorem Node.children_mk (t : EId) (a : Attrs) (cs : List Node) :
    (Node.mk t a cs).children = cs := rfl

@[simp] theorem Node.withAttrs_mk (t : EId) (a a' : Attrs) (cs : List Node) :
    (Node.mk t a cs).withAttrs a' = Node.mk t a' cs := rfl

theorem Node.eta : ∀ n : Node, Node.mk n.tag n.attrs n.children = n
  | .mk _ _ _ => rfl

@[simp] theorem Attrs.get_insert (a : Attrs) (i : AId) (v : AttrValue) (j : AId) :
    (a.insert i v).get j = if j = i then some v else a.get j := rfl

@[simp] theorem Attrs.get_remove (a : Attrs) (i : AId) (j : AId) :
    (a.remove i).get j = if j = i then none else a.get j := rfl

@[simp] theorem Attrs.get_attrsOf (l : List (AId × AttrValue)) (j : AId) :
    (attrsOf l).get j = (l.find? (fun p => decide (p.1 = j))).map (fun p => p.2) := rfl

@[simp] theorem Attrs.contains_eq (a : Attrs) (i : AId) :
    a.contains i = (a.get i).isSome := rfl

set_option linter.unusedVariables false in
/-- Structural induction over the document tree. -/
theorem node_ind {P : Node → Prop}
    (h : ∀ t a cs, (∀ c ∈ cs, P c) → P (Node.mk t a cs)) : ∀ n, P n
  | .mk t a cs => h t a cs (fun c hc => node_ind h c)
termination_by n => sizeOf n
decreasing_by
  simp only [Node.mk.sizeOf_spec]
  have := List.sizeOf_lt_of_mem hc
  omega

/-! ## Characterization lemmas for the shape rewrites -/

theorem get_scale_pos_coord_x (attrs : Attrs) (ax ay : AId) (ts : Transform)
    (h : ax ≠ ay) :
    (scale_pos_coord attrs ax ay ts).get ax =
      some (.length ⟨(ts.apply (get_length attrs ax Length.zero).num
        (get_length attrs ay Length.zero).num).1, LUnit.none⟩) := by
  simp [scale_pos_coord, h]

theorem get_scale_pos_coord_y (attrs : Attrs) (ax ay : AId) (ts : Transform) :
    (scale_pos_coord attrs ax ay ts).get ay =
      some (.length ⟨(ts.apply (get_length attrs ax Length.zero).num
        (get_length attrs ay Length.zero).num).2, LUnit.none⟩) := by
  simp [scale_pos_coord]

theorem get_scale_pos_coord_other (attrs : Attrs) (ax ay j : AId) (ts : Transform)
    (h1 : j ≠ ax) (h2 : j ≠ ay) :
    (scale_pos_coord attrs ax ay ts).get j = attrs.get j := by
  simp [scale_pos_coord, h1, h2]

theorem get_scale_coord_same (attrs : Attrs) (aid : AId) (sf : ℚ) (l : Length)
    (h : attrs.get aid = some (.length l)) :
    (scale_coord attrs aid sf).get aid = some (.length ⟨l.num * sf, l.unit⟩) := by
  simp [scale_coord, h]

theorem scale_coord_of_none (attrs : Attrs) (aid : AId) (sf : ℚ)
    (h : attrs.get aid = none) :
    scale_coord attrs aid sf = attrs := by
  simp [scale_coord, h]

theorem get_scale_coord_other (attrs : Attrs) (aid j : AId) (sf : ℚ)
    (h : j ≠ aid) :
    (scale_coord attrs aid sf).get j = attrs.get j := by
  unfold scale_coord
  cases hv : attrs.get aid with
  | none => rfl
  | some v =>
    cases v <;> simp [h]

/-! ## Characterization lemmas for `process` -/

theorem process_skip (inherited : ℚ) (func : Attrs → Transform → Attrs) (n : Node)
    (h : bakeGate n = false) : process inherited func n = n := by
  simp [process, h]

theorem process_tag (inherited : ℚ) (func : Attrs → Transform → Attrs) (n : Node) :
    (process inherited func n).tag = n.tag := by
  unfold process
  split
  · split
    · cases n; rfl
    · rfl
  · rfl

theorem process_children (inherited : ℚ) (func : Attrs → Transform → Attrs) (n : Node) :
    (process inherited func n).children = n.children := by
  unfold process
  split
  · split
    · cases n; rfl
    · rfl
  · rfl

theorem process_attrs_eq (inherited : ℚ) (func : Attrs → Transform → Attrs) (n : Node)
    (ts : Transform) (hv : bakeGate n = true) (hts : getTsA n.attrs = some ts) :
    (process inherited func n).attrs =
      (if ts.has_scale then
        recalc_stroke_width inherited ((func n.attrs ts).remove AId.transform) ts.get_scale.1
      else (func n.attrs ts).remove AId.transform) := by
  unfold process
  rw [if_pos hv, hts]
  cases n
  rfl

/-- A node carrying a transform attribute that passes transform validity
carries a typed affine transform (otherwise `is_valid_transformA` is
`false`). -/
theorem typed_of_valid_transform (attrs : Attrs)
    (hc : (attrs.get AId.transform).isSome = true)
    (hv : is_valid_transformA attrs = true) :
    ∃ ts, getTsA attrs = some ts := by
  unfold is_valid_transformA at hv
  rw [hc] at hv
  simp only [Bool.true_eq_false, if_false] at hv
  cases h : getTsA attrs with
  | some ts => exact ⟨ts, rfl⟩
  | none => rw [h] at hv; exact absurd hv (by simp)

/-! ## Infrastructure for the idempotence proof -/

/-- A node at which the group-hoisting loop body does nothing: the
eligibility gate is closed. -/
def goodG (n : Node) : Prop :=
  groupEligible n.tag n.attrs n.children = false

/-- A node at which the shape-baking loop body does nothing: if it is a
shape carrying a transform, the validity gate is closed. -/
def goodS (n : Node) : Prop :=
  shapeTag n.tag = true → (n.attrs.get AId.transform).isSome = true →
    bakeGate n = false

mutual
/-- A predicate holds at every node of a tree. -/
def AllNodes (P : Node → Prop) : Node → Prop
  | .mk t a cs => P (.mk t a cs) ∧ AllNodesL P cs

def AllNodesL (P : Node → Prop) : List Node → Prop
  | [] => True
  | c :: cs => AllNodes P c ∧ AllNodesL P cs
end

/-- `bakeGate` only looks at a node's tag and attributes. -/
theorem bakeGate_mk (t : EId) (a : Attrs) (cs cs' : List Node) :
    bakeGate (Node.mk t a cs) = bakeGate (Node.mk t a cs') := rfl

/-- `child_ok` only looks at a node's tag and attributes. -/
theorem child_ok_mk (t : EId) (a : Attrs) (cs cs' : List Node) :
    child_ok (Node.mk t a cs) = child_ok (Node.mk t a cs') := rfl

/-- `processNode` leaves a node alone when it has no transform attribute,
is not a shape, or fails the validity gate. -/
theorem processNode_skip (inherited : ℚ) (n : Node)
    (h : (n.attrs.get AId.transform).isSome = false ∨ shapeTag n.tag = false ∨
         bakeGate n = false) :
    processNode inherited n = n := by
  unfold processNode
  by_cases hc : n.attrs.contains AId.transform = true
  case neg => rw [if_neg hc]
  rw [if_pos hc]
  rcases h with h | h | h
  · exact absurd hc (by simp [Attrs.contains, Attrs.get] at h ⊢; simp [h])
  · cases htag : n.tag <;> simp [shapeTag, htag] at h <;> rfl
  · cases htag : n.tag <;>
      simp [process_rect, process_circle, process_ellipse, process_line,
        process_skip _ _ _ h]

/-- `process` deletes the transform attribute whenever it fires. -/
theorem process_removes_transform (inherited : ℚ)
    (func : Attrs → Transform → Attrs) (n : Node) (ts : Transform)
    (hv : bakeGate n = true) (hts : getTsA n.attrs = some ts) :
    (process inherited func n).attrs.get AId.transform = none := by
  rw [process_attrs_eq inherited func n ts hv hts]
  split
  · simp [recalc_stroke_width]
  · simp

/-- After `processNode`, a shape that still carries a transform fails the
gate. -/
theorem processNode_goodS (inherited : ℚ) (n : Node) :
    goodS (processNode inherited n) := by
  by_cases htr : (n.attrs.get AId.transform).isSome = true
  · by_cases hsh : shapeTag n.tag = true
    · by_cases hg : bakeGate n = true
      · -- the node is processed and its transform removed
        intro _ habs
        exfalso
        have hvt : is_valid_transformA n.attrs = true := by
          have h2 := hg
          unfold bakeGate is_valid_transform at h2
          simp only [Bool.and_eq_true] at h2
          exact h2.1.1
        obtain ⟨ts, hts⟩ := typed_of_valid_transform n.attrs htr hvt
        have hnone : ∀ f inh, ((process inh f n).attrs.get AId.transform) = none :=
          fun f inh => process_removes_transform inh f n ts hg hts
        revert habs
        unfold processNode
        rw [if_pos (by simpa [Attrs.contains, Attrs.get] using htr)]
        cases htag : n.tag <;> simp [shapeTag, htag] at hsh ⊢ <;>
          simp [process_rect, process_circle, process_ellipse, process_line, hnone]
      · rw [processNode_skip inherited n (Or.inr (Or.inr (by simpa using hg)))]
        intro _ _
        simpa using hg
    · rw [processNode_skip inherited n (Or.inr (Or.inl (by simpa using hsh)))]
      intro h' _
      exact absurd h' (by simpa using hsh)
  · rw [processNode_skip inherited n (Or.inl (by simpa using htr))]
    intro _ h'
    exact absurd h' (by simpa using htr)

/-- The head of the group-eligibility gate: the conjuncts that only look at
the group's own tag and attributes. -/
def headGate (t : EId) (attrs : Attrs) : Bool :=
  decide (t = EId.g) && attrs.contains AId.transform &&
  is_valid_transformA attrs && is_valid_attrsA attrs

theorem groupEligible_decomp (t : EId) (attrs : Attrs) (cs : List Node) :
    groupEligible t attrs cs = (headGate t attrs && cs.all child_ok) := rfl

theorem bakeGate_children_irrelevant (m : Node) (cs' : List Node) :
    bakeGate (Node.mk m.tag m.attrs cs') = bakeGate m := by
  cases m; rfl

/-- Unfolding lemma for `pass1N`. -/
theorem pass1N_eq (o : Option Transform) (t : EId) (a : Attrs) (cs : List Node) :
    pass1N o (.mk t a cs) =
      if groupEligible t (applyPending o a) cs then
        match getTsA (applyPending o a) with
        | some ts => .mk t ((applyPending o a).remove AId.transform) (pass1Cs (some ts) cs)
        | none => .mk t (applyPending o a) (pass1Cs none cs)
      else .mk t (applyPending o a) (pass1Cs none cs) := by
  rw [pass1N]

/-- Unfolding lemma for `pass2N`. -/
theorem pass2N_eq (i : ℚ) (t : EId) (a : Attrs) (cs : List Node) :
    pass2N i (.mk t a cs) =
      .mk t (processNode i (.mk t a cs)).attrs
        (pass2Cs (inheritedSW i (processNode i (.mk t a cs)).attrs) cs) := by
  rw [pass2N]

theorem processNode_tag (i : ℚ) (n : Node) : (processNode i n).tag = n.tag := by
  unfold processNode
  split
  · cases htag : n.tag <;> simp [process_rect, process_circle, process_ellipse,
      process_line, process_tag, htag]
  · rfl

theorem processNode_children (i : ℚ) (n : Node) :
    (processNode i n).children = n.children := by
  unfold processNode
  split
  · cases htag : n.tag <;> simp [process_rect, process_circle, process_ellipse,
      process_line, process_children, htag]
  · rfl

/-- The group pass with no pending update never changes whether a node
passes `child_ok` (it only ever rewrites the attributes of `<g>` nodes,
which fail `child_ok` on their tag alone). -/
theorem child_ok_pass1N_none (c : Node) :
    child_ok (pass1N none c) = child_ok c := by
  cases c with
  | mk t a cs =>
    rw [pass1N_eq]
    simp only [applyPending]
    by_cases helig : groupEligible t a cs = true
    · rw [if_pos helig]
      have htg : t = EId.g := by
        rw [groupEligible_decomp] at helig
        simp only [Bool.and_eq_true, headGate] at helig
        exact of_decide_eq_true helig.1.1.1.1
      subst htg
      cases hts : getTsA a <;> simp [child_ok, shapeTag]
    · rw [if_neg helig]
      exact child_ok_mk t a (pass1Cs none cs) cs

theorem pass1Cs_all_child_ok (cs : List Node) :
    (pass1Cs none cs).all child_ok = cs.all child_ok := by
  induction cs with
  | nil => rfl
  | cons c cs ih =>
    rw [pass1Cs]
    simp [List.all, child_ok_pass1N_none, ih]

/-- The baking pass never makes a failing child pass `child_ok`. -/
theorem child_ok_pass2N_false (i : ℚ) (c : Node) (h : child_ok c = false) :
    child_ok (pass2N i c) = false := by
  cases c with
  | mk t a cs =>
    rw [pass2N_eq]
    unfold child_ok at h
    rcases Bool.and_eq_false_iff.mp h with h1 | h1
    · simp only [Node.tag_mk] at h1
      simp [child_ok, h1]
    · have hskip : processNode i (.mk t a cs) = .mk t a cs :=
        processNode_skip i _ (Or.inr (Or.inr h1))
      rw [hskip]
      unfold child_ok
      simp only [Node.attrs_mk, Node.tag_mk]
      rw [show bakeGate (Node.mk t a (pass2Cs (inheritedSW i a) cs))
            = bakeGate (Node.mk t a cs) from rfl]
      simp [h1]

theorem pass2Cs_all_false (i : ℚ) (cs : List Node)
    (h : cs.all child_ok = false) :
    (pass2Cs i cs).all child_ok = false := by
  induction cs with
  | nil => simp [List.all] at h
  | cons c cs ih =>
    rw [pass2Cs]
    simp only [List.all] at h ⊢
    rcases Bool.and_eq_false_iff.mp h with h1 | h1
    · simp [child_ok_pass2N_false i c h1]
    · simp [ih h1]

mutual
/-- After the group-hoisting pass, no group anywhere in the tree is still
eligible: every eligible group had its transform removed. -/
theorem pass1N_goodG : ∀ (o : Option Transform) (n : Node),
    AllNodes goodG (pass1N o n)
  | o, .mk t a cs => by
    rw [pass1N]
    split
    case isTrue helig =>
      split
      case h_1 ts hts =>
        refine ⟨?_, pass1Cs_goodG (some ts) cs⟩
        show groupEligible _ _ _ = false
        simp only [Node.tag_mk, Node.attrs_mk, Node.children_mk,
          groupEligible_decomp, headGate, Attrs.contains, Attrs.remove]
        simp
      case h_2 hts =>
        exfalso
        rw [groupEligible_decomp] at helig
        simp only [Bool.and_eq_true, headGate] at helig
        obtain ⟨ts, hts'⟩ := typed_of_valid_transform (applyPending o a)
          (by simpa [Attrs.contains] using helig.1.1.1.2) helig.1.1.2
        rw [hts'] at hts
        exact Option.noConfusion hts
    case isFalse helig =>
      refine ⟨?_, pass1Cs_goodG none cs⟩
      show groupEligible _ _ _ = false
      simp only [Node.tag_mk, Node.attrs_mk, Node.children_mk, groupEligible_decomp]
      rw [groupEligible_decomp] at helig
      cases hh : headGate t (applyPending o a) with
      | false => simp
      | true =>
        rw [hh] at helig
        simp only [Bool.true_and] at helig ⊢
        rw [pass1Cs_all_child_ok]
        simpa using helig

theorem pass1Cs_goodG : ∀ (o : Option Transform) (cs : List Node),
    AllNodesL goodG (pass1Cs o cs)
  | _, [] => by rw [pass1Cs]; trivial
  | o, c :: cs => by
    rw [pass1Cs]
    exact ⟨pass1N_goodG o c, pass1Cs_goodG o cs⟩
end

mutual
/-- The baking pass preserves the no-eligible-group invariant. -/
theorem pass2N_pres_goodG : ∀ (i : ℚ) (n : Node),
    AllNodes goodG n → AllNodes goodG (pass2N i n)
  | i, .mk t a cs => by
    intro h
    rw [AllNodes] at h
    obtain ⟨hroot, hcs⟩ := h
    rw [pass2N_eq, AllNodes]
    refine ⟨?_, pass2Cs_pres_goodG _ cs hcs⟩
    show groupEligible _ _ _ = false
    simp only [Node.tag_mk, Node.attrs_mk, Node.children_mk]
    by_cases htg : t = EId.g
    · subst htg
      have hskip : processNode i (Node.mk EId.g a cs) = Node.mk EId.g a cs :=
        processNode_skip i _ (Or.inr (Or.inl rfl))
      rw [hskip]
      simp only [Node.attrs_mk]
      have hroot' : groupEligible EId.g a cs = false := hroot
      rw [groupEligible_decomp] at hroot' ⊢
      cases hh : headGate EId.g a with
      | false => simp
      | true =>
        rw [hh] at hroot'
        simp only [Bool.true_and] at hroot' ⊢
        exact pass2Cs_all_false _ cs hroot'
    · rw [groupEligible_decomp]
      simp [headGate, htg]

theorem pass2Cs_pres_goodG : ∀ (i : ℚ) (cs : List Node),
    AllNodesL goodG cs → AllNodesL goodG (pass2Cs i cs)
  | _, [], _ => by rw [pass2Cs]; trivial
  | i, c :: cs, h => by
    rw [AllNodesL] at h
    rw [pass2Cs, AllNodesL]
    exact ⟨pass2N_pres_goodG i c h.1, pass2Cs_pres_goodG i cs h.2⟩
end

mutual
/-- After the baking pass, every shape still carrying a transform fails the
validity gate. -/
theorem pass2N_goodS : ∀ (i : ℚ) (n : Node), AllNodes goodS (pass2N i n)
  | i, .mk t a cs => by
    rw [pass2N_eq, AllNodes]
    refine ⟨?_, pass2Cs_goodS _ cs⟩
    have hg := processNode_goodS i (.mk t a cs)
    have htg : (processNode i (.mk t a cs)).tag = t := processNode_tag i _
    cases hm : processNode i (.mk t a cs) with
    | mk tm am csm =>
      rw [hm] at hg htg
      simp only [Node.tag_mk] at htg
      rw [htg] at hg
      unfold goodS at hg ⊢
      simp only [Node.tag_mk, Node.attrs_mk] at hg ⊢
      intro hsh htr
      rw [show bakeGate (Node.mk t am (pass2Cs (inheritedSW i am) cs))
            = bakeGate (Node.mk t am csm) from rfl]
      exact hg hsh htr

theorem pass2Cs_goodS : ∀ (i : ℚ) (cs : List Node), AllNodesL goodS (pass2Cs i cs)
  | _, [] => by rw [pass2Cs]; trivial
  | i, c :: cs => by
    rw [pass2Cs, AllNodesL]
    exact ⟨pass2N_goodS i c, pass2Cs_goodS i cs⟩
end

mutual
/-- On a tree with no eligible group, the hoisting pass is the identity. -/
theorem pass1N_id : ∀ (n : Node), AllNodes goodG n → pass1N none n = n
  | .mk t a cs => by
    intro h
    rw [AllNodes] at h
    obtain ⟨hroot, hcs⟩ := h
    rw [pass1N_eq]
    simp only [applyPending]
    rw [if_neg (by rw [show groupEligible t a cs = false from hroot]; simp)]
    rw [pass1Cs_id cs hcs]

theorem pass1Cs_id : ∀ (cs : List Node), AllNodesL goodG cs → pass1Cs none cs = cs
  | [], _ => by rw [pass1Cs]
  | c :: cs, h => by
    rw [AllNodesL] at h
    rw [pass1Cs, pass1N_id c h.1, pass1Cs_id cs h.2]
end

mutual
/-- On a tree where every transform-carrying shape fails the gate, the
baking pass is the identity. -/
theorem pass2N_id : ∀ (i : ℚ) (n : Node), AllNodes goodS n → pass2N i n = n
  | i, .mk t a cs => by
    intro h
    rw [AllNodes] at h
    obtain ⟨hroot, hcs⟩ := h
    rw [pass2N_eq]
    have hskip : processNode i (Node.mk t a cs) = Node.mk t a cs := by
      by_cases htr : ((Node.mk t a cs).attrs.get AId.transform).isSome = true
      · by_cases hsh : shapeTag t = true
        · exact processNode_skip i _ (Or.inr (Or.inr (hroot (by simpa using hsh) htr)))
        · exact processNode_skip i _ (Or.inr (Or.inl (by simpa using hsh)))
      · exact processNode_skip i _ (Or.inl (by simpa using htr))
    rw [hskip]
    simp only [Node.attrs_mk]
    rw [pass2Cs_id _ cs hcs]

theorem pass2Cs_id : ∀ (i : ℚ) (cs : List Node), AllNodesL goodS cs → pass2Cs i cs = cs
  | _, [], _ => by rw [pass2Cs]
  | i, c :: cs, h => by
    rw [AllNodesL] at h
    rw [pass2Cs, pass2N_id i c h.1, pass2Cs_id i cs h.2]
end

/-- Composition correctness of the modelled matrix product: applying the
composed transform is applying the second argument first. -/
theorem Transform.append_apply (t1 t2 : Transform) (x y : ℚ) :
    (t1.append t2).apply x y =
      t1.apply ((t2.apply x y).1) ((t2.apply x y).2) := by
  simp only [Transform.apply, Transform.append, Prod.mk.injEq]
  constructor <;> ring

/-! ## Claims -/

/-- C8: the whole pass is idempotent — running the transform-baking entry
point a second time on the result of the first run changes nothing: after
one run no eligible group and no bakeable transform-carrying shape remains,
so both passes of the second run are the identity. -/
theorem C8_apply_transform_to_shapes_idempotent (doc : Node) :
    apply_transform_to_shapes (apply_transform_to_shapes doc) =
      apply_transform_to_shapes doc := by
  have h1 : AllNodes goodG (pass1N none doc) := pass1N_goodG none doc
  have h2 : AllNodes goodG (pass2N 1 (pass1N none doc)) := pass2N_pres_goodG 1 _ h1
  have h3 : AllNodes goodS (pass2N 1 (pass1N none doc)) := pass2N_goodS 1 _
  unfold apply_transform_to_shapes
  rw [pass1N_id _ h2, pass2N_id _ _ h3]

/-- C1: for an eligible group with transform `T`, hoisting removes the
group's transform; every child's new transform is `T.append T_c` when the
child already had `T_c` (child's local transform applied first, then the
group's, as the composition law in the last conjunct states) and `T` itself
when it had none. -/
theorem C1_hoist_composes_transforms (n : Node) (T : Transform)
    (helig : groupEligible n.tag n.attrs n.children = true)
    (hts : get_ts n = some T) :
    ((hoistGroup n).attrs.get AId.transform = none)
    ∧ ((hoistGroup n).children
        = n.children.map (fun c => c.withAttrs (hoistAttrs T c.attrs)))
    ∧ (∀ (a : Attrs) (Tc : Transform), a.get AId.transform = some (.transform Tc) →
        (hoistAttrs T a).get AId.transform = some (.transform (T.append Tc)))
    ∧ (∀ a : Attrs, a.get AId.transform = none →
        (hoistAttrs T a).get AId.transform = some (.transform T))
    ∧ (∀ (Tc : Transform) (x y : ℚ),
        (T.append Tc).apply x y = T.apply ((Tc.apply x y).1) ((Tc.apply x y).2)) := by
  unfold hoistGroup
  rw [if_pos helig]
  unfold get_ts at hts
  rw [hts]
  refine ⟨by simp, rfl, ?_, ?_, Transform.append_apply T⟩
  · intro a Tc hTc
    unfold hoistAttrs
    rw [if_pos (by simp [Attrs.contains, show a AId.transform = some (.transform Tc) from hTc])]
    rw [hTc]
    simp
  · intro a ha
    unfold hoistAttrs
    rw [if_neg (by simp [Attrs.contains, show a AId.transform = none from ha])]
    simp

set_option linter.unusedVariables false in
/-- C3: group-hoisting atomicity — a group with any direct child failing
the eligibility check (wrong kind or any validity predicate) is left
exactly as found: no child is mutated and the group's transform stays. -/
theorem C3_hoist_atomicity (n : Node) (htag : n.tag = EId.g)
    (htr : (n.attrs.get AId.transform).isSome = true)
    (c : Node) (hc : c ∈ n.children) (hbad : child_ok c = false) :
    hoistGroup n = n := by
  have hall : n.children.all child_ok = false := by
    cases hAll : n.children.all child_ok
    · rfl
    · have := List.all_eq_true.mp hAll c hc
      rw [hbad] at this
      exact absurd this (by simp)
  unfold hoistGroup
  rw [if_neg]
  rw [groupEligible_decomp, hall]
  simp

/-- C10: a group carrying a transform, passing transform and attribute
validity, with no children at all, is hoisted vacuously: the transform
attribute is removed from the group even though no child receives it. -/
theorem C10_empty_group_hoisted (n : Node) (htag : n.tag = EId.g)
    (hcs : n.children = [])
    (htr : (n.attrs.get AId.transform).isSome = true)
    (hvt : is_valid_transform n = true) (hva : is_valid_attrs n = true) :
    hoistGroup n = Node.mk EId.g (n.attrs.remove AId.transform) []
    ∧ (hoistGroup n).attrs.get AId.transform = none := by
  obtain ⟨ts, hts⟩ := typed_of_valid_transform n.attrs htr hvt
  have helig : groupEligible n.tag n.attrs n.children = true := by
    rw [groupEligible_decomp, hcs, htag]
    unfold is_valid_transform at hvt
    unfold is_valid_attrs at hva
    simp [headGate, Attrs.contains, hvt, hva,
      show (n.attrs AId.transform).isSome = true from htr]
  constructor
  · unfold hoistGroup
    rw [if_pos helig, hts, hcs, htag]
    rfl
  · unfold hoistGroup
    rw [if_pos helig, hts]
    simp

/-- Concrete group for the C1 witness: `translate(10 20) scale(2)` on the
group, one rect child with its own `scale(3)`, one rect child without a
transform. -/
def gT_C1 : Transform := ⟨2, 0, 0, 2, 10, 20⟩

def cT_C1 : Transform := ⟨3, 0, 0, 3, 0, 0⟩

def child1_C1 : Node := .mk .rect (attrsOf [(.transform, .transform cT_C1)]) []

def child2_C1 : Node := .mk .rect (attrsOf []) []

def gNode_C1 : Node :=
  .mk .g (attrsOf [(.transform, .transform gT_C1)]) [child1_C1, child2_C1]

/-- Witness for C1 at a concrete eligible group. -/
theorem C1_hoist_composes_transforms_witness :
    groupEligible gNode_C1.tag gNode_C1.attrs gNode_C1.children = true
    ∧ get_ts gNode_C1 = some gT_C1
    ∧ (hoistGroup gNode_C1).attrs.get AId.transform = none
    ∧ (hoistAttrs gT_C1 child1_C1.attrs).get AId.transform
        = some (.transform (gT_C1.append cT_C1))
    ∧ (hoistAttrs gT_C1 child2_C1.attrs).get AId.transform
        = some (.transform gT_C1) := by
  have hT : get_ts gNode_C1 = some gT_C1 := rfl
  have hE : groupEligible gNode_C1.tag gNode_C1.attrs gNode_C1.children = true := by
    simp only [gNode_C1, child1_C1, child2_C1, gT_C1, cT_C1, Node.tag_mk, Node.attrs_mk,
      Node.children_mk]
    simp [groupEligible, headGate, child_ok, shapeTag, bakeGate, is_valid_transform,
      is_valid_transformA, is_valid_attrs, is_valid_attrsA, is_valid_coords,
      is_valid_coords_list, is_valid_coord, getTsA, isFuncLink, Attrs.contains,
      Attrs.get, attrsOf, List.find?, List.all, Transform.has_scale,
      Transform.has_proportional_scale, Transform.has_skew]
  have main := C1_hoist_composes_transforms gNode_C1 gT_C1 hE hT
  exact ⟨hE, hT, main.1,
    main.2.2.1 child1_C1.attrs cT_C1 rfl,
    main.2.2.2.1 child2_C1.attrs rfl⟩

/-- Concrete group for the C3 witness: the only child is not a shape. -/
def badChild_C3 : Node := .mk .other (attrsOf []) []

def gNode_C3 : Node :=
  .mk .g (attrsOf [(.transform, .transform ⟨2, 0, 0, 2, 0, 0⟩)]) [badChild_C3]

/-- Witness for C3 at a concrete group with an ineligible child. -/
theorem C3_hoist_atomicity_witness :
    gNode_C3.tag = EId.g
    ∧ (gNode_C3.attrs.get AId.transform).isSome = true
    ∧ badChild_C3 ∈ gNode_C3.children
    ∧ child_ok badChild_C3 = false
    ∧ hoistGroup gNode_C3 = gNode_C3 := by
  have h1 : gNode_C3.tag = EId.g := rfl
  have h2 : (gNode_C3.attrs.get AId.transform).isSome = true := rfl
  have h3 : badChild_C3 ∈ gNode_C3.children := by
    simp [gNode_C3]
  have h4 : child_ok badChild_C3 = false := rfl
  exact ⟨h1, h2, h3, h4, C3_hoist_atomicity gNode_C3 h1 h2 badChild_C3 h3 h4⟩

/-- Concrete childless group for the C10 witness. -/
def gNode_C10 : Node :=
  .mk .g (attrsOf [(.transform, .transform ⟨2, 0, 0, 2, 0, 0⟩)]) []

/-- Witness for C10 at a concrete childless group. -/
theorem C10_empty_group_hoisted_witness :
    gNode_C10.tag = EId.g
    ∧ gNode_C10.children = []
    ∧ (gNode_C10.attrs.get AId.transform).isSome = true
    ∧ is_valid_transform gNode_C10 = true
    ∧ is_valid_attrs gNode_C10 = true
    ∧ (hoistGroup gNode_C10).attrs.get AId.transform = none := by
  have h1 : gNode_C10.tag = EId.g := rfl
  have h2 : gNode_C10.children = [] := rfl
  have h3 : (gNode_C10.attrs.get AId.transform).isSome = true := rfl
  have h4 : is_valid_transform gNode_C10 = true := by
    simp only [gNode_C10, is_valid_transform, Node.attrs_mk]
    simp [is_valid_transformA, getTsA, Attrs.get, attrsOf, List.find?,
      Transform.has_scale, Transform.has_proportional_scale, Transform.has_skew]
  have h5 : is_valid_attrs gNode_C10 = true := rfl
  exact ⟨h1, h2, h3, h4, h5,
    (C10_empty_group_hoisted gNode_C10 h1 h2 h3 h4 h5).2⟩

/-- Full characterization of a lookup after `scale_coord`. -/
theorem get_scale_coord (attrs : Attrs) (aid : AId) (sf : ℚ) (j : AId) :
    (scale_coord attrs aid sf).get j =
      if j = aid then
        match attrs.get aid with
        | some (.length l) => some (.length ⟨l.num * sf, l.unit⟩)
        | v => v
      else attrs.get j := by
  unfold scale_coord
  cases hv : attrs.get aid with
  | none => by_cases hj : j = aid <;> simp [hj, hv]
  | some v => cases v <;> by_cases hj : j = aid <;> simp [hj, hv]

/-- Under a scaling transform, `rect_func` multiplies each present
length-valued size attribute by the scale factor and leaves the rest of the
binding untouched. -/
theorem rect_func_get_sizes (attrs : Attrs) (ts : Transform)
    (hsc : ts.has_scale = true) (aid : AId)
    (haid : aid = AId.width ∨ aid = AId.height ∨ aid = AId.rx ∨ aid = AId.ry) :
    (rect_func attrs ts).get aid =
      match attrs.get aid with
      | some (.length l) => some (.length ⟨l.num * ts.get_scale.1, l.unit⟩)
      | v => v := by
  rcases haid with rfl | rfl | rfl | rfl <;>
    simp [rect_func, hsc, get_scale_coord, get_scale_pos_coord_other]

/-- `rect_func` never touches the stroke-width binding. -/
theorem rect_func_strokeWidth (a : Attrs) (ts : Transform) :
    (rect_func a ts).get AId.strokeWidth = a.get AId.strokeWidth := by
  cases hsc : ts.has_scale <;>
    simp [rect_func, hsc, get_scale_coord, get_scale_pos_coord_other]

set_option linter.unusedVariables false in
/-- C2: a valid rect carrying transform `T` has (x, y) — defaulting to 0
when absent — mapped through the full `T`; exactly when `T` has a scale
component, each present length-valued `width`/`height`/`rx`/`ry` is
multiplied by the uniform factor; when it has none they are untouched; the
transform attribute is removed. -/
theorem C2_rect_bake (inh : ℚ) (n : Node) (T : Transform)
    (htag : n.tag = EId.rect) (hv : bakeGate n = true) (hts : get_ts n = some T) :
    ((process_rect inh n).attrs.get AId.x
        = some (.length ⟨(T.apply (get_length n.attrs AId.x Length.zero).num
            (get_length n.attrs AId.y Length.zero).num).1, LUnit.none⟩))
    ∧ ((process_rect inh n).attrs.get AId.y
        = some (.length ⟨(T.apply (get_length n.attrs AId.x Length.zero).num
            (get_length n.attrs AId.y Length.zero).num).2, LUnit.none⟩))
    ∧ (T.has_scale = true → ∀ aid,
        (aid = AId.width ∨ aid = AId.height ∨ aid = AId.rx ∨ aid = AId.ry) →
        ∀ l : Length, n.attrs.get aid = some (.length l) →
        (process_rect inh n).attrs.get aid
          = some (.length ⟨l.num * T.get_scale.1, l.unit⟩))
    ∧ (T.has_scale = false → ∀ aid,
        (aid = AId.width ∨ aid = AId.height ∨ aid = AId.rx ∨ aid = AId.ry) →
        (process_rect inh n).attrs.get aid = n.attrs.get aid)
    ∧ ((process_rect inh n).attrs.get AId.transform = none) := by
  unfold get_ts at hts
  unfold process_rect
  have hats := process_attrs_eq inh rect_func n T hv hts
  refine ⟨?_, ?_, ?_, ?_, ?_⟩
  · rw [hats]
    cases hsc : T.has_scale <;>
      simp [hsc, recalc_stroke_width, rect_func, get_scale_coord,
        get_scale_pos_coord_x, get_scale_pos_coord_other]
  · rw [hats]
    cases hsc : T.has_scale <;>
      simp [hsc, recalc_stroke_width, rect_func, get_scale_coord,
        get_scale_pos_coord_y]
  · intro hsc aid haid l hl
    rw [hats, if_pos hsc]
    have hrf := rect_func_get_sizes n.attrs T hsc aid haid
    rcases haid with rfl | rfl | rfl | rfl <;>
      simp [recalc_stroke_width, hrf, hl]
  · intro hsc aid haid
    rw [hats, if_neg (by simp [hsc])]
    rcases haid with rfl | rfl | rfl | rfl <;>
      simp [rect_func, hsc, get_scale_pos_coord_other]
  · rw [hats]
    cases hsc : T.has_scale <;> simp [recalc_stroke_width]

/-- C5: when any validity predicate fails, the element is left entirely
unmodified: the four shape processors return it unchanged, and — when its
own transform or attribute validity fails — so does the hoisting step. -/
theorem C5_gate_failure_no_mutation (inh : ℚ) (n : Node)
    (h : is_valid_transform n = false ∨ is_valid_attrs n = false ∨
         is_valid_coords n = false) :
    process_rect inh n = n ∧ process_circle inh n = n
    ∧ process_ellipse inh n = n ∧ process_line inh n = n
    ∧ (is_valid_transform n = false ∨ is_valid_attrs n = false →
        hoistGroup n = n) := by
  have hb : bakeGate n = false := by
    unfold bakeGate
    rcases h with h | h | h <;> simp [h]
  refine ⟨process_skip _ _ _ hb, process_skip _ _ _ hb,
    process_skip _ _ _ hb, process_skip _ _ _ hb, ?_⟩
  intro h2
  have hge : groupEligible n.tag n.attrs n.children = false := by
    rw [groupEligible_decomp]
    unfold headGate
    rcases h2 with h2 | h2
    · unfold is_valid_transform at h2
      simp [h2]
    · unfold is_valid_attrs at h2
      simp [h2]
  unfold hoistGroup
  rw [if_neg (by simp [hge])]

/-- C6: for a baked shape, the stroke width is recomputed — the current or,
when absent, the nearest inherited stroke-width multiplied by the uniform
scale factor — exactly when the transform has a scale component; otherwise
it is untouched. -/
theorem C6_stroke_width (inh : ℚ) (func : Attrs → Transform → Attrs) (n : Node)
    (T : Transform)
    (hf : ∀ a ts, Attrs.get (func a ts) AId.strokeWidth = a.get AId.strokeWidth)
    (hv : bakeGate n = true) (hts : get_ts n = some T) :
    (T.has_scale = true →
      (process inh func n).attrs.get AId.strokeWidth
        = some (.length ⟨inheritedSW inh n.attrs * T.get_scale.1, LUnit.none⟩))
    ∧ (T.has_scale = false →
      (process inh func n).attrs.get AId.strokeWidth
        = n.attrs.get AId.strokeWidth) := by
  unfold get_ts at hts
  have hats := process_attrs_eq inh func n T hv hts
  constructor
  · intro hsc
    rw [hats, if_pos hsc]
    have ha1 : ((func n.attrs T).remove AId.transform).get AId.strokeWidth
        = n.attrs.get AId.strokeWidth := by
      simp [hf]
    unfold recalc_stroke_width
    rw [ha1]
    simp [inheritedSW]
  · intro hsc
    rw [hats, if_neg (by simp [hsc])]
    simp [hf]

/-- Evaluation helper: the uniform scale factor of a `scale(2)` matrix. -/
theorem get_scale_two (e f : ℚ) : (Transform.get_scale ⟨2, 0, 0, 2, e, f⟩).1 = 2 := by
  show ratSqrt ((2 : ℚ) ^ 2 + 0 ^ 2) = 2
  norm_num [ratSqrt]
  norm_num [Int.toNat]

/-- Evaluation helper: a `scale(2)` matrix has a scale component. -/
theorem has_scale_two (e f : ℚ) : (⟨2, 0, 0, 2, e, f⟩ : Transform).has_scale = true := by
  simp [Transform.has_scale]
  norm_num

/-- Concrete rect for the C2 witness (the source test `apply_2` shape). -/
def tT_C2 : Transform := ⟨2, 0, 0, 2, 10, 20⟩

def nC2 : Node := .mk .rect (attrsOf
  [(.x, .length ⟨10, LUnit.none⟩), (.y, .length ⟨10, LUnit.none⟩),
   (.width, .length ⟨10, LUnit.none⟩), (.transform, .transform tT_C2)]) []

/-- Witness for C2: baking `translate(10 20) scale(2)` into a rect at
(10,10) of width 10 yields x = 30, width = 20, and no transform. -/
theorem C2_rect_bake_witness :
    bakeGate nC2 = true
    ∧ get_ts nC2 = some tT_C2
    ∧ tT_C2.has_scale = true
    ∧ (process_rect 1 nC2).attrs.get AId.x = some (.length ⟨30, LUnit.none⟩)
    ∧ (process_rect 1 nC2).attrs.get AId.width = some (.length ⟨20, LUnit.none⟩)
    ∧ (process_rect 1 nC2).attrs.get AId.transform = none := by
  have hT : get_ts nC2 = some tT_C2 := rfl
  have hsc : tT_C2.has_scale = true := has_scale_two 10 20
  have hv : bakeGate nC2 = true := by
    simp only [nC2, tT_C2, bakeGate, is_valid_transform, is_valid_attrs,
      is_valid_coords, Node.attrs_mk, Node.tag_mk]
    simp [is_valid_transformA, is_valid_attrsA, is_valid_coords_list,
      is_valid_coord, getTsA, isFuncLink, Attrs.contains, Attrs.get, attrsOf,
      List.find?, Transform.has_scale, Transform.has_proportional_scale,
      Transform.has_skew]
  have main := C2_rect_bake 1 nC2 tT_C2 rfl hv hT
  refine ⟨hv, hT, hsc, ?_, ?_, main.2.2.2.2⟩
  · have h1 := main.1
    rw [show (get_length nC2.attrs AId.x Length.zero).num = 10 from rfl,
        show (get_length nC2.attrs AId.y Length.zero).num = 10 from rfl] at h1
    rw [h1]
    norm_num [Transform.apply, tT_C2]
  · have h3 := main.2.2.1 hsc AId.width (Or.inl rfl) ⟨10, LUnit.none⟩ rfl
    rw [h3, show tT_C2.get_scale.1 = 2 from get_scale_two 10 20]
    norm_num

/-- Concrete rect for the C5 witness: carries a mask, so attribute validity
fails. -/
def nC5 : Node := .mk .rect (attrsOf
  [(.maskAttr, .funcLink "m"), (.transform, .transform ⟨2, 0, 0, 2, 0, 0⟩)]) []

/-- Witness for C5 at a concrete masked rect. -/
theorem C5_gate_failure_no_mutation_witness :
    is_valid_attrs nC5 = false
    ∧ process_rect 1 nC5 = nC5
    ∧ hoistGroup nC5 = nC5 := by
  have ha : is_valid_attrs nC5 = false := rfl
  have main := C5_gate_failure_no_mutation 1 nC5 (Or.inr (Or.inl ha))
  exact ⟨ha, main.1, main.2.2.2.2 (Or.inr ha)⟩

/-- Concrete rect for the C6 witness: no stroke-width of its own, inherited
stroke-width 3, `scale(2)` transform. -/
def nC6 : Node := .mk .rect (attrsOf [(.transform, .transform ⟨2, 0, 0, 2, 0, 0⟩)]) []

/-- Witness for C6: the baked stroke width is the inherited 3 times the
scale factor 2. -/
theorem C6_stroke_width_witness :
    bakeGate nC6 = true
    ∧ get_ts nC6 = some ⟨2, 0, 0, 2, 0, 0⟩
    ∧ (process 3 rect_func nC6).attrs.get AId.strokeWidth
        = some (.length ⟨6, LUnit.none⟩) := by
  have hT : get_ts nC6 = some ⟨2, 0, 0, 2, 0, 0⟩ := rfl
  have hv : bakeGate nC6 = true := by
    simp only [nC6, bakeGate, is_valid_transform, is_valid_attrs,
      is_valid_coords, Node.attrs_mk, Node.tag_mk]
    simp [is_valid_transformA, is_valid_attrsA, is_valid_coords_list,
      is_valid_coord, getTsA, isFuncLink, Attrs.contains, Attrs.get, attrsOf,
      List.find?, Transform.has_scale, Transform.has_proportional_scale,
      Transform.has_skew]
  have main := (C6_stroke_width 3 rect_func nC6 ⟨2, 0, 0, 2, 0, 0⟩
    rect_func_strokeWidth hv hT).1 (has_scale_two 0 0)
  refine ⟨hv, hT, ?_⟩
  rw [main, show inheritedSW 3 nC6.attrs = 3 from rfl,
    show (Transform.get_scale ⟨2, 0, 0, 2, 0, 0⟩).1 = 2 from get_scale_two 0 0]
  norm_num

/-- A list-`all` is false as soon as one member fails. -/
theorem all_false_of_mem {α : Type} (l : List α) (p : α → Bool) (a : α)
    (ha : a ∈ l) (hp : p a = false) : l.all p = false := by
  cases h : l.all p
  · rfl
  · have := List.all_eq_true.mp h a ha
    rw [hp] at this
    exact absurd this (by simp)

/-- The position attributes whose units `is_valid_coords` checks, per
element kind. -/
def posAids : EId → List AId
  | .rect => [AId.x, AId.y]
  | .circle => [AId.cx, AId.cy]
  | .ellipse => [AId.cx, AId.cy]
  | .line => [AId.x1, AId.y1, AId.x2, AId.y2]
  | _ => []

/-- Concrete rect for the C4 counterexample: a unit-bearing `width` and a
`scale(2)` transform. -/
def nC4 : Node := .mk .rect (attrsOf
  [(.width, .length ⟨10, LUnit.physical⟩),
   (.transform, .transform ⟨2, 0, 0, 2, 0, 0⟩)]) []

/-- C4 counterexample: a rect whose `width` carries a physical unit IS
mutated by baking — the width is scaled to 20 (keeping its unit) and the
node changes, refuting "a rect with a unit-bearing width … is never
mutated". -/
theorem C4_unit_size_scaled_counterexample :
    nC4.attrs.get AId.width = some (.length ⟨10, LUnit.physical⟩)
    ∧ (process_rect 1 nC4).attrs.get AId.width
        = some (.length ⟨20, LUnit.physical⟩)
    ∧ process_rect 1 nC4 ≠ nC4 := by
  have h1 : nC4.attrs.get AId.width = some (.length ⟨10, LUnit.physical⟩) := rfl
  have hT : getTsA nC4.attrs = some ⟨2, 0, 0, 2, 0, 0⟩ := rfl
  have hv : bakeGate nC4 = true := by
    simp only [nC4, bakeGate, is_valid_transform, is_valid_attrs,
      is_valid_coords, Node.attrs_mk, Node.tag_mk]
    simp [is_valid_transformA, is_valid_attrsA, is_valid_coords_list,
      is_valid_coord, getTsA, isFuncLink, Attrs.contains, Attrs.get, attrsOf,
      List.find?, Transform.has_scale, Transform.has_proportional_scale,
      Transform.has_skew]
  have hats := process_attrs_eq 1 rect_func nC4 ⟨2, 0, 0, 2, 0, 0⟩ hv hT
  have h2 : (process_rect 1 nC4).attrs.get AId.width
      = some (.length ⟨20, LUnit.physical⟩) := by
    unfold process_rect
    rw [hats, if_pos (has_scale_two 0 0)]
    have hrf := rect_func_get_sizes nC4.attrs ⟨2, 0, 0, 2, 0, 0⟩
      (has_scale_two 0 0) AId.width (Or.inl rfl)
    rw [h1] at hrf
    simp only [recalc_stroke_width, Attrs.get_insert, Attrs.get_remove]
    simp [hrf, get_scale_two 0 0]
    norm_num
  refine ⟨h1, h2, ?_⟩
  intro heq
  have hcontr := congrArg (fun m => m.attrs.get AId.width) heq
  simp only [] at hcontr
  rw [h2, h1] at hcontr
  have : (20 : ℚ) = 10 := by
    have := Option.some.inj hcontr
    have := AttrValue.length.inj this
    exact congrArg Length.num this
  norm_num at this

/-- C4 amended: the coordinate-unit predicate checks only the *position*
attributes of each shape; a unit-bearing position attribute makes it fail,
and a failing predicate leaves the element unchanged by every shape
processor.  (Unit-bearing *size* attributes do not block baking: they are
scaled with their unit kept, as the counterexample shows.) -/
theorem C4_amended_position_units_gate (inh : ℚ) (n : Node) :
    ((∃ aid ∈ posAids n.tag, ∃ l : Length,
        n.attrs.get aid = some (.length l) ∧ l.unit ≠ LUnit.none) →
      is_valid_coords n = false)
    ∧ (is_valid_coords n = false →
        process_rect inh n = n ∧ process_circle inh n = n
        ∧ process_ellipse inh n = n ∧ process_line inh n = n) := by
  constructor
  · rintro ⟨aid, hmem, l, hl, hu⟩
    have hcoord : is_valid_coord n.attrs aid = false := by
      unfold is_valid_coord
      rw [hl]
      simp [hu]
    unfold is_valid_coords
    cases htag : n.tag <;> rw [htag] at hmem <;> simp only [posAids] at hmem
    all_goals
      exact all_false_of_mem _ _ aid (by simpa using hmem) hcoord
  · intro hcoords
    have hb : bakeGate n = false := by
      unfold bakeGate
      simp [hcoords]
    exact ⟨process_skip _ _ _ hb, process_skip _ _ _ hb,
      process_skip _ _ _ hb, process_skip _ _ _ hb⟩

/-- Concrete circle for the C4 amended witness: `cx` is a percentage. -/
def nC4w : Node := .mk .circle (attrsOf
  [(.cx, .length ⟨10, LUnit.percent⟩),
   (.transform, .transform ⟨2, 0, 0, 2, 0, 0⟩)]) []

/-- Witness for the amended C4 at a concrete circle with a percentage
position coordinate. -/
theorem C4_amended_position_units_gate_witness :
    is_valid_coords nC4w = false ∧ process_circle 1 nC4w = nC4w := by
  have h := C4_amended_position_units_gate 1 nC4w
  have h1 : is_valid_coords nC4w = false := by
    apply h.1
    refine ⟨AId.cx, ?_, ⟨10, LUnit.percent⟩, rfl, by simp⟩
    simp [posAids, nC4w]
  exact ⟨h1, (h.2 h1).2.1⟩

/-- Concrete rect for the C7 counterexample: no width attribute at all, a
`scale(2)` transform. -/
def nC7 : Node := .mk .rect (attrsOf [(.transform, .transform ⟨2, 0, 0, 2, 0, 0⟩)]) []

/-- C7 counterexample: baking a rect with no `width` under a scaling
transform does bake it (the transform is gone and the missing `x` is
written back as 0) yet writes no `width` attribute — refuting "a missing
size attribute is written back as an explicit attribute". -/
theorem C7_missing_size_not_written_counterexample :
    nC7.attrs.get AId.width = none
    ∧ (process_rect 1 nC7).attrs.get AId.transform = none
    ∧ (process_rect 1 nC7).attrs.get AId.x = some (.length ⟨0, LUnit.none⟩)
    ∧ (process_rect 1 nC7).attrs.get AId.width = none := by
  have h0 : nC7.attrs.get AId.width = none := rfl
  have hT : getTsA nC7.attrs = some ⟨2, 0, 0, 2, 0, 0⟩ := rfl
  have hv : bakeGate nC7 = true := by
    simp only [nC7, bakeGate, is_valid_transform, is_valid_attrs,
      is_valid_coords, Node.attrs_mk, Node.tag_mk]
    simp [is_valid_transformA, is_valid_attrsA, is_valid_coords_list,
      is_valid_coord, getTsA, isFuncLink, Attrs.contains, Attrs.get, attrsOf,
      List.find?, Transform.has_scale, Transform.has_proportional_scale,
      Transform.has_skew]
  have hats := process_attrs_eq 1 rect_func nC7 ⟨2, 0, 0, 2, 0, 0⟩ hv hT
  have hsc := has_scale_two (0 : ℚ) 0
  have hrfw := rect_func_get_sizes nC7.attrs ⟨2, 0, 0, 2, 0, 0⟩ hsc AId.width (Or.inl rfl)
  rw [h0] at hrfw
  have hx : (rect_func nC7.attrs ⟨2, 0, 0, 2, 0, 0⟩).get AId.x
      = some (.length ⟨(Transform.apply ⟨2, 0, 0, 2, 0, 0⟩
          (get_length nC7.attrs AId.x Length.zero).num
          (get_length nC7.attrs AId.y Length.zero).num).1, LUnit.none⟩) := by
    simp [rect_func, hsc, get_scale_coord, get_scale_pos_coord_x]
  refine ⟨h0, ?_, ?_, ?_⟩
  · unfold process_rect
    rw [hats, if_pos hsc]
    simp [recalc_stroke_width]
  · unfold process_rect
    rw [hats, if_pos hsc]
    simp only [recalc_stroke_width, Attrs.get_insert, Attrs.get_remove]
    rw [show (get_length nC7.attrs AId.x Length.zero).num = 0 from rfl,
        show (get_length nC7.attrs AId.y Length.zero).num = 0 from rfl] at hx
    have hx0 : (Transform.apply ⟨2, 0, 0, 2, 0, 0⟩ (0 : ℚ) 0).1 = 0 := by
      norm_num [Transform.apply]
    rw [hx0] at hx
    simp [hx]
  · unfold process_rect
    rw [hats, if_pos hsc]
    simp only [recalc_stroke_width, Attrs.get_insert, Attrs.get_remove]
    simp [hrfw]

/-- C7 amended: missing *position* attributes default to zero and are
written back explicitly after mapping; missing *size* attributes are not
created — `scale_coord` only rewrites a size attribute that is already
present. -/
theorem C7_amended_position_defaults_only (attrs : Attrs) (ax ay aid : AId)
    (ts : Transform) (sf : ℚ) (hxy : ax ≠ ay) :
    ((scale_pos_coord attrs ax ay ts).get ax =
      some (.length ⟨(ts.apply (get_length attrs ax Length.zero).num
        (get_length attrs ay Length.zero).num).1, LUnit.none⟩))
    ∧ ((scale_pos_coord attrs ax ay ts).get ay =
      some (.length ⟨(ts.apply (get_length attrs ax Length.zero).num
        (get_length attrs ay Length.zero).num).2, LUnit.none⟩))
    ∧ (attrs.get aid = none → scale_coord attrs aid sf = attrs) :=
  ⟨get_scale_pos_coord_x attrs ax ay ts hxy,
   get_scale_pos_coord_y attrs ax ay ts,
   fun h => scale_coord_of_none attrs aid sf h⟩

/-- Witness for the amended C7 at concrete values: an empty attribute set
under `translate(5 6)` gains x = 5, y = 6, and `scale_coord` on the absent
width is the identity. -/
theorem C7_amended_position_defaults_only_witness :
    AId.x ≠ AId.y
    ∧ ((scale_pos_coord (attrsOf []) AId.x AId.y ⟨1, 0, 0, 1, 5, 6⟩).get AId.x =
        some (.length ⟨(Transform.apply ⟨1, 0, 0, 1, 5, 6⟩
          (get_length (attrsOf []) AId.x Length.zero).num
          (get_length (attrsOf []) AId.y Length.zero).num).1, LUnit.none⟩))
    ∧ (scale_coord (attrsOf []) AId.width 2 = attrsOf []) := by
  have h := C7_amended_position_defaults_only (attrsOf []) AId.x AId.y AId.width
    ⟨1, 0, 0, 1, 5, 6⟩ 2 (by simp)
  exact ⟨by simp, h.1, h.2.2 rfl⟩

/-- Concrete rect for the C9 counterexample: the transform attribute is
present but holds a length, not a typed affine transform. -/
def nC9 : Node := .mk .rect (attrsOf [(.transform, .length ⟨1, LUnit.none⟩)]) []

/-- C9 counterexample: on a present-but-untyped transform value, reading
the transform panics (both unwraps of `get_ts` are modelled by `none`)
instead of the validity predicate being treated as failed — refuting
"reading the transform never aborts execution". -/
theorem C9_untyped_transform_counterexample :
    (nC9.attrs.get AId.transform).isSome = true
    ∧ get_ts nC9 = none
    ∧ is_valid_transformP nC9 = none
    ∧ is_valid_transformP nC9 ≠ some false := by
  refine ⟨rfl, rfl, rfl, ?_⟩
  rw [show is_valid_transformP nC9 = none from rfl]
  simp

/-- C9 amended: the core assumes upstream typing — when every present
transform value is a typed affine transform, evaluating transform validity
is total (never the panic `none`); a present untyped value makes the
evaluation hit the unwrap panic rather than report `false`. -/
theorem C9_amended_typed_never_panics (n : Node) :
    ((∃ v, n.attrs.get AId.transform = some v ∧ ∀ t : Transform, v ≠ .transform t) →
      is_valid_transformP n = none)
    ∧ ((∀ v, n.attrs.get AId.transform = some v → ∃ t : Transform, v = .transform t) →
      ∃ b, is_valid_transformP n = some b) := by
  constructor
  · rintro ⟨v, hv, hnt⟩
    unfold is_valid_transformP
    rw [if_neg (by simp [hv])]
    unfold getTsA
    rw [hv]
    cases v with
    | transform t => exact absurd rfl (hnt t)
    | length l => rfl
    | funcLink i => rfl
    | color s => rfl
    | unsupported s => rfl
  · intro h
    unfold is_valid_transformP
    by_cases hc : (n.attrs.get AId.transform).isSome = false
    · rw [if_pos hc]
      exact ⟨true, rfl⟩
    · rw [if_neg hc]
      obtain ⟨v, hv⟩ : ∃ v, n.attrs.get AId.transform = some v := by
        cases hval : n.attrs.get AId.transform with
        | none => exact absurd (by simp [hval]) hc
        | some v => exact ⟨v, rfl⟩
      obtain ⟨t, rfl⟩ := h v hv
      unfold getTsA
      rw [hv]
      exact ⟨_, rfl⟩

/-- Concrete rect with a typed transform for the C9 amended witness. -/
def nC9w : Node := .mk .rect (attrsOf [(.transform, .transform ⟨1, 0, 0, 1, 0, 0⟩)]) []

/-- Witness for the amended C9: typed value → some verdict; untyped value →
the panic `none`. -/
theorem C9_amended_typed_never_panics_witness :
    (∃ b, is_valid_transformP nC9w = some b)
    ∧ is_valid_transformP nC9 = none := by
  constructor
  · apply (C9_amended_typed_never_panics nC9w).2
    intro v hv
    refine ⟨⟨1, 0, 0, 1, 0, 0⟩, ?_⟩
    have h0 : nC9w.attrs.get AId.transform
        = some (.transform ⟨1, 0, 0, 1, 0, 0⟩) := rfl
    rw [h0] at hv
    exact (Option.some.inj hv).symm
  · apply (C9_amended_typed_never_panics nC9).1
    refine ⟨.length ⟨1, LUnit.none⟩, rfl, ?_⟩
    intro t h
    cases h
